import Mathlib

/-! Shallow embedding of the all-to-many personalized communication benchmark
programs of this repository: the synthetic ratio-pattern benchmark
(`alltoallw.c`), the trace-replay benchmark (`trace_alltomany.c`) and the
demonstration program (`MPI/alltomany.c`).  Pure data (counts, displacements,
posted-operation sequences, timing-bucket bookkeeping, reduction/report
logic) is translated directly from the C sources; wall-clock time is
abstracted as a cumulative tick function `T : Nat -> Nat`. -/

/-- One MPI operation posted by a transport strategy: a non-blocking receive,
a non-blocking synchronous-mode send, a non-blocking standard send, or the
combined wait.  `peer` is the remote rank, `count` the element count of the
transfer, `off` the element offset of the transfer inside the local buffer. -/
inductive Op
  | irecv (peer count off : Nat)
  | issend (peer count off : Nat)
  | isend (peer count off : Nat)
  | waitall (nreqs : Nat)
deriving DecidableEq

/-- The remote rank an operation addresses (none for the wait). -/
def Op.peerOf : Op → Option Nat
  | .irecv p _ _ => some p
  | .issend p _ _ => some p
  | .isend p _ _ => some p
  | .waitall _ => none

/-- Element count received by an operation (0 unless it is a receive). -/
def Op.recvCount : Op → Nat
  | .irecv _ c _ => c
  | _ => 0

/-- One-past-the-end element offset of the transfer (0 for the wait). -/
def Op.endOff : Op → Nat
  | .irecv _ c o => o + c
  | .issend _ c o => o + c
  | .isend _ c o => o + c
  | .waitall _ => 0

/-- Whether the operation is a non-blocking receive. -/
def Op.isIrecv : Op → Bool
  | .irecv _ _ _ => true
  | _ => false

/-- Whether the operation is a non-blocking synchronous-mode send. -/
def Op.isIssend : Op → Bool
  | .issend _ _ _ => true
  | _ => false

namespace Alltoallw

/-- Size of a C `int` in bytes, as used by `alltoallw.c` for displacements. -/
def sizeofInt : Nat := 4

/-- From `main`: `num_recvers = nprocs / ratio`. -/
def num_recvers (nprocs : Nat) ( ratio : Nat) : Nat := nprocs / ratio

/-- From `main`: `is_receiver = (rank % ratio == 0) ? 1 : 0`. -/
def is_receiver (rank : Nat) ( ratio : Nat) : Bool := rank % ratio == 0

/-- The `recvCounts` array set up in `run_alltoallw`: only a receiver has
non-zero entries, one per peer other than itself, each of `len` ints
(`calloc` zero-initializes the rest). -/
def recvCounts (rank : Nat) (isr : Bool) (len i : Nat) : Nat :=
  if isr = true ∧ i ≠ rank then len else 0

/-- The `recvDisps` array set up in `run_alltoallw`: the loop counter `j`
advances for every peer `i` (self included), so peer `i` is placed at byte
displacement `(len + gap) * i * sizeof(int)`. -/
def recvDisps (rank : Nat) (isr : Bool) (len gap i : Nat) : Nat :=
  if isr = true ∧ i ≠ rank then (len + gap) * i * sizeofInt else 0

/-- The `sendCounts` array set up in `run_alltoallw`: every rank sends `len`
ints to each receiver (`i % ratio == 0`) other than itself. -/
def sendCounts (rank : Nat) ( ratio : Nat) (len i : Nat) : Nat :=
  if i % ratio = 0 ∧ i ≠ rank then len else 0

/-- The `sendDisps` array set up in `run_alltoallw`: the counter `j` advances
only at receivers, so receiver `i` (the `i / ratio`-th receiver) is placed at
byte displacement `(len + gap) * (i / ratio) * sizeof(int)`. -/
def sendDisps (rank : Nat) ( ratio : Nat) (len gap i : Nat) : Nat :=
  if i % ratio = 0 ∧ i ≠ rank then (len + gap) * (i / ratio) * sizeofInt else 0

/-- Total number of bytes the local process receives in one iteration of
`run_alltoallw`: the sum of its `recvCounts` entries, in bytes. -/
def recvTotalBytes (nprocs rank : Nat) (isr : Bool) (len : Nat) : Nat :=
  ((List.range nprocs).map (fun i => sizeofInt * recvCounts rank isr len i)).sum

/-- Total number of bytes the local process sends in one iteration of
`run_alltoallw`: the sum of its `sendCounts` entries, in bytes. -/
def sendTotalBytes (nprocs rank : Nat) ( ratio : Nat) (len : Nat) : Nat :=
  ((List.range nprocs).map (fun i => sizeofInt * sendCounts rank ratio len i)).sum

/-- Byte extent of the per-iteration send region of `sendBuf` allocated in
`main`: `num_recvers * (len + gap)` ints. -/
def sendIterBytes (nprocs : Nat) ( ratio : Nat) (len gap : Nat) : Nat :=
  num_recvers nprocs ratio * (len + gap) * sizeofInt

/-- Whether byte offset `off` of the send buffer falls inside the byte range
`[sendDisps i, sendDisps i + sizeof(int) * sendCounts i)` of some
participating peer `i`. -/
def coveredSend (nprocs rank : Nat) ( ratio : Nat) (len gap off : Nat) : Bool :=
  (List.range nprocs).any (fun i =>
    decide (sendCounts rank ratio len i ≠ 0) &&
    decide (sendDisps rank ratio len gap i ≤ off) &&
    decide (off < sendDisps rank ratio len gap i + sizeofInt * sendCounts rank ratio len i))

/-- The receive operations posted by one iteration of `run_async_send_recv`:
only a receiver posts them, one `MPI_Irecv` of `len` ints per peer `j` other
than itself; `recvPtr` advances by `len + gap` ints for every `j`, self
included.  Offsets are in ints. -/
def asyncRecvOps (nprocs rank : Nat) (isr : Bool) (len gap : Nat) : List Op :=
  if isr then
    (List.range nprocs).filterMap (fun j =>
      if j ≠ rank then some (Op.irecv j len ((len + gap) * j)) else none)
  else []

/-- The send operations posted by one iteration of `run_async_send_recv`,
given the starting int offset `ptr` of `sendPtr`: one `MPI_Issend` of `len`
ints per receiver `j` (`j % ratio == 0`) other than itself; `sendPtr`
advances by `len + gap` ints at every receiver, self included. -/
def asyncSendOpsFrom ( ratio : Nat) (rank len gap : Nat) : List Nat → Nat → List Op
  | [], _ => []
  | j :: js, ptr =>
    if j % ratio = 0 then
      (if rank ≠ j then [Op.issend j len ptr] else []) ++
        asyncSendOpsFrom ratio rank len gap js (ptr + (len + gap))
    else asyncSendOpsFrom ratio rank len gap js ptr

/-- One iteration of `run_async_send_recv` of `alltoallw.c`: all receives
are posted first, then all sends, then one `MPI_Waitall` over every posted
request.  `ptr0` is the int offset `sendPtr` has at the top of the
iteration. -/
def run_async_iter (nprocs rank : Nat) ( ratio : Nat) (isr : Bool) (len gap ptr0 : Nat) :
    List Op :=
  let r := asyncRecvOps nprocs rank isr len gap
  let s := asyncSendOpsFrom ratio rank len gap (List.range nprocs) ptr0
  r ++ s ++ [Op.waitall (r.length + s.length)]

end Alltoallw

namespace Alltomany

/-- From `MPI/alltomany.c` `main`: the receivers are `recver_rank[i] = i * ratio`
for `i < num_recvers`, where `num_recvers = min (nprocs / ratio) max_num_recvers`. -/
def recver_rank ( ratio : Nat) (i : Nat) : Nat := i * ratio

/-- From `MPI/alltomany.c` `main`: `is_recver` is set when the local rank
appears among the `num_recvers` receiver ranks. -/
def is_recver (numr : Nat) ( ratio : Nat) (rank : Nat) : Bool :=
  (List.range numr).any (fun i => recver_rank ratio i == rank)

/-- One iteration of the point-to-point path of `MPI/alltomany.c` `main`
(lines 158-186): a receiver posts `MPI_Irecv` from every rank `j` in
`0..nprocs-1` — itself included — advancing `ptr` by `len` bytes per post;
then every rank posts a send of `len` bytes to each of the `num_recvers`
receiver ranks — itself included — `MPI_Issend` when the `-s` flag is set and
`MPI_Isend` otherwise; finally one `MPI_Waitall` over all posted requests. -/
def iterOps (nprocs : Nat) ( ratio : Nat) (numr : Nat) (isr use_issend : Bool)
    (len : Nat) : List Op :=
  let recvs := if isr then (List.range nprocs).map
      (fun j => Op.irecv j len (len * j)) else []
  let base := if isr then len * nprocs else 0
  let sends := (List.range numr).map (fun j =>
      (if use_issend then Op.issend else Op.isend) (recver_rank ratio j) len
        (base + len * j))
  recvs ++ sends ++ [Op.waitall (recvs.length + sends.length)]

end Alltomany

namespace Alltoallw

/-- Expected receive-buffer content in `check_recv_buf` of `alltoallw.c`:
position `j` of peer segment `i` holds the sender rank `i` when `i` is not
the local rank and `j` lies in the message part, and the initialization
sentinel `-3` in the gap part and in the self segment. -/
def expect (rank len : Nat) (i j : Nat) : Int :=
  if i = rank then -3 else if j < len then (i : Int) else -3

/-- Result of `check_recv_buf`: the returned error counter together with the
list of (segment, position) index pairs that were logged. -/
structure CheckResult where
  err : Int
  log : List (Nat × Nat)
deriving DecidableEq

/-- The scanning loop of `check_recv_buf`: walks the index pairs in order;
on the first mismatch it prints (logs) the offending indices and jumps to
`err_out`, returning the error counter — which is never incremented and thus
still 0. -/
def check_recv_buf_go (recvBuf : Nat → Int) (rank len gap : Nat) :
    List (Nat × Nat) → CheckResult
  | [] => ⟨0, []⟩
  | (i, j) :: rest =>
    if recvBuf (i * (len + gap) + j) ≠ expect rank len i j then
      ⟨0, [(i, j)]⟩
    else check_recv_buf_go recvBuf rank len gap rest

/-- The index pairs `(i, j)` scanned by `check_recv_buf`, in loop order:
`i` over all peer segments, `j` over the `len + gap` positions of each. -/
def allIdx (nprocs len gap : Nat) : List (Nat × Nat) :=
  (List.range nprocs).flatMap (fun i =>
    (List.range (len + gap)).map (fun j => (i, j)))

/-- `check_recv_buf` of `alltoallw.c` as a function of the receive buffer
contents (indexed by flat int offset). -/
def check_recv_buf (recvBuf : Nat → Int) (nprocs rank len gap : Nat) : CheckResult :=
  check_recv_buf_go recvBuf rank len gap (allIdx nprocs len gap)

/-- All index pairs at which the receive buffer mismatches the expected
contents (what a full, non-aborting scan would log). -/
def mismatchList (recvBuf : Nat → Int) (nprocs rank len gap : Nat) : List (Nat × Nat) :=
  (allIdx nprocs len gap).filter (fun p =>
    decide (recvBuf (p.1 * (len + gap) + p.2) ≠ expect rank len p.1 p.2))

end Alltoallw

namespace TraceAlltomany

/-- One per-iteration peer list of the trace (`trace` struct of
`trace_alltomany.c`): the parallel arrays `ranks` and `amnts` of length
`nprocs`, modelled as a list of (peer rank, byte amount) pairs. -/
abbrev Pairs := List (Nat × Nat)

/-- Amount accumulated by `main` when sizing a buffer: it scans the peer
list but stops at the first peer whose recorded rank is `>= nprocs`
(`break`), summing the amounts seen before that point. -/
def breakAmnt (nprocs : Nat) (l : Pairs) : Nat :=
  ((l.takeWhile (fun e => decide (e.1 < nprocs))).map (fun e => e.2)).sum

/-- Amount actually transferred by the strategies: they skip the individual
out-of-range peers (`continue`) and keep scanning, so the in-range amounts
of the whole list are summed. -/
def filterAmnt (nprocs : Nat) (l : Pairs) : Nat :=
  ((l.filter (fun e => decide (e.1 < nprocs))).map (fun e => e.2)).sum

/-- Total amount the trace declares for the local process in this iteration,
with no peer dropped. -/
def declaredAmnt (l : Pairs) : Nat := (l.map (fun e => e.2)).sum

/-- Size of the single reusable receive buffer allocated in `main`: the
largest per-iteration receive amount over all iterations (each computed with
the `break`-at-first-out-of-range rule). -/
def recv_amnt (nprocs : Nat) (iters : List Pairs) : Nat :=
  (iters.map (breakAmnt nprocs)).foldl Nat.max 0

/-- The receive operations posted by one iteration of `run_async_send_recv`
of `trace_alltomany.c`, from cursor `ptr` (in bytes): each in-range peer gets
an `MPI_Irecv` of its amount and advances the cursor; out-of-range peers are
skipped entirely. -/
def recvOpsFrom (nprocs : Nat) : Pairs → Nat → List Op
  | [], _ => []
  | (r, a) :: rest, ptr =>
    if r < nprocs then Op.irecv r a ptr :: recvOpsFrom nprocs rest (ptr + a)
    else recvOpsFrom nprocs rest ptr

/-- The send operations posted by one iteration of `run_async_send_recv`
of `trace_alltomany.c`, from cursor `ptr` (in bytes): each in-range peer gets
an `MPI_Issend` of its amount and advances the cursor; out-of-range peers
are skipped entirely. -/
def sendOpsFrom (nprocs : Nat) : Pairs → Nat → List Op
  | [], _ => []
  | (r, a) :: rest, ptr =>
    if r < nprocs then Op.issend r a ptr :: sendOpsFrom nprocs rest (ptr + a)
    else sendOpsFrom nprocs rest ptr

/-- One iteration of `run_async_send_recv` of `trace_alltomany.c`: all
receives for the iteration's receive list are posted first, then all sends
for its send list, then one `MPI_Waitall` over every posted request. -/
def run_async_iter (nprocs : Nat) (send recv : Pairs) : List Op :=
  let r := recvOpsFrom nprocs recv 0
  let s := sendOpsFrom nprocs send 0
  r ++ s ++ [Op.waitall (r.length + s.length)]

/-- The per-peer descriptor entries `(peer, count, disp)` built by
`run_alltoallw` of `trace_alltomany.c` for one iteration and one direction:
in-range peers get their amount at the running byte displacement `disp`,
which then advances by the amount; out-of-range peers are skipped. -/
def buildDescr (nprocs : Nat) : Pairs → Nat → List (Nat × Nat × Nat)
  | [], _ => []
  | (r, a) :: rest, disp =>
    if r < nprocs then (r, a, disp) :: buildDescr nprocs rest (disp + a)
    else buildDescr nprocs rest disp

/-- Contiguity of a descriptor entry list from a starting displacement: each
entry sits exactly at the cursor and advances it by its count. -/
def contigFrom : Nat → List (Nat × Nat × Nat) → Prop
  | _, [] => True
  | d, e :: rest => e.2.2 = d ∧ contigFrom (d + e.2.1) rest

/-- Bucket length used by both strategies of `trace_alltomany.c`:
`ntimes / 10`, incremented when `ntimes % 10` is non-zero. -/
def bucket_len (ntimes : Nat) : Nat :=
  ntimes / 10 + (if ntimes % 10 = 0 then 0 else 1)

/-- The timing loop of both strategies, over the abstract cumulative clock
`T` (`T j` is the wall time when iteration `j` starts, `T ntimes` when the
loop ends): after iteration `j` with `j > 0` and `j % bucket_len == 0`, slot
`j / bucket_len` records the time since the last recorded boundary and the
boundary moves.  The state is (timing array, `start_t`). -/
def timingLoopGo (bl : Nat) (T : Nat → Nat) :
    List Nat → ((Nat → Nat) × Nat) → ((Nat → Nat) × Nat)
  | [], acc => acc
  | j :: js, acc =>
    timingLoopGo bl T js
      (if 0 < j ∧ j % bl = 0 then
        (Function.update acc.1 (j / bl) (T (j + 1) - acc.2), T (j + 1))
      else acc)

/-- State of the timing array and `start_t` after the whole iteration loop,
starting from the all-zero array and `start_t = T 0`. -/
def timingLoop (ntimes : Nat) (T : Nat → Nat) : (Nat → Nat) × Nat :=
  timingLoopGo (bucket_len ntimes) T (List.range ntimes) ((fun _ => 0), T 0)

/-- The recorded timing sample: after the loop, slot 9 is overwritten with
the tail time since the last recorded boundary, and slot 0 with the
end-to-end time of the whole timed region. -/
def timingFinal (ntimes : Nat) (T : Nat → Nat) : Nat → Nat :=
  Function.update
    (Function.update (timingLoop ntimes T).1 9 (T ntimes - (timingLoop ntimes T).2))
    0 (T ntimes - T 0)

/-- Modelled from the spec: the elapsed time of bucket `b` when the
`ntimes`-iteration timeline is sliced into buckets of `ceil(ntimes/10)`
iterations each — what slot `b` would hold if the sample really consisted of
10 per-bucket elapsed times. -/
def specBucketTime (ntimes : Nat) (T : Nat → Nat) (b : Nat) : Nat :=
  T (min ((b + 1) * bucket_len ntimes) ntimes) - T (min (b * bucket_len ntimes) ntimes)

/-- The `MPI_Reduce(..., MPI_MAX, ...)` of the timing arrays of all
processes: the pointwise maximum. -/
def reduceMax (arrs : List (Nat → Nat)) (k : Nat) : Nat :=
  (arrs.map (fun t => t k)).foldl Nat.max 0

/-- The `MPI_Reduce(..., MPI_SUM, ...)` of the per-process byte counters. -/
def reduceSum (l : List Nat) : Nat := l.sum

/-- Only the process of rank 0 prints the reduced results. -/
def rank0_prints (rank : Nat) : Bool := rank == 0

/-- The byte counter `amnt` accumulated by either strategy of
`trace_alltomany.c` over the whole run: per iteration it adds the in-range
amounts of the iteration's RECEIVE list (`run_async_send_recv` adds each
`recver[j].amnts[i]` as it posts the receive; `run_alltoallw` adds the final
receive displacement `disp`). -/
def amntCounter (nprocs : Nat) (recvIters : List Pairs) : Nat :=
  (recvIters.map (filterAmnt nprocs)).sum

/-- Modelled from the spec: the bytes the local process places on the wire —
what it sends — in-range send amounts summed over all iterations. -/
def wireBytes (nprocs : Nat) (sendIters : List Pairs) : Nat :=
  (sendIters.map (filterAmnt nprocs)).sum

end TraceAlltomany

/-- C1 (claim as stated is false): in Scenario A (4 processes, ratio 2,
64-byte messages i.e. `len = 16` ints, 1 iteration) the receiver of rank 0
receives `3 * 64 = 192` bytes — one message from every other rank, the other
receiver included — not `2 * 64`; and rank 0, a receiver, itself sends 64
bytes, so it is not true that only non-receivers send. -/
theorem claim1_counterexample :
    Alltoallw.recvTotalBytes 4 0 (Alltoallw.is_receiver 0 2) 16 = 192 ∧
    Alltoallw.recvTotalBytes 4 0 (Alltoallw.is_receiver 0 2) 16 ≠ 2 * 64 ∧
    Alltoallw.sendTotalBytes 4 0 2 16 = 64 ∧
    Alltoallw.sendTotalBytes 4 0 2 16 ≠ 0 := by decide

/-- C1 (amended): with 4 processes, ratio 2, message length 64 bytes
(`len = 16` ints) and 1 iteration, the receivers are exactly ranks 0 and 2;
every process sends one 64-byte message to every receiver other than itself,
so each receiver receives `3 * 64` bytes (one message from each of the three
other ranks, the other receiver included), each non-receiver sends `2 * 64`
bytes, and each receiver additionally sends `1 * 64` bytes to the other
receiver.  The point-to-point strategy posts the same receive volume. -/
theorem claim1_amended :
    (Alltoallw.is_receiver 0 2 = true ∧ Alltoallw.is_receiver 1 2 = false ∧
     Alltoallw.is_receiver 2 2 = true ∧ Alltoallw.is_receiver 3 2 = false) ∧
    Alltoallw.recvTotalBytes 4 0 (Alltoallw.is_receiver 0 2) 16 = 3 * 64 ∧
    Alltoallw.recvTotalBytes 4 2 (Alltoallw.is_receiver 2 2) 16 = 3 * 64 ∧
    Alltoallw.recvTotalBytes 4 1 (Alltoallw.is_receiver 1 2) 16 = 0 ∧
    Alltoallw.recvTotalBytes 4 3 (Alltoallw.is_receiver 3 2) 16 = 0 ∧
    Alltoallw.sendTotalBytes 4 1 2 16 = 2 * 64 ∧
    Alltoallw.sendTotalBytes 4 3 2 16 = 2 * 64 ∧
    Alltoallw.sendTotalBytes 4 0 2 16 = 1 * 64 ∧
    Alltoallw.sendTotalBytes 4 2 2 16 = 1 * 64 ∧
    ((Alltoallw.run_async_iter 4 0 2 (Alltoallw.is_receiver 0 2) 16 4 0).map
        Op.recvCount).sum * Alltoallw.sizeofInt = 3 * 64 := by decide

/-- Helper: every receive posted by the point-to-point strategy of
`alltoallw.c` names a peer other than the local rank. -/
theorem Alltoallw.asyncRecvOps_ne_self (nprocs rank : Nat) (isr : Bool) (len gap : Nat) :
    ∀ op ∈ Alltoallw.asyncRecvOps nprocs rank isr len gap, Op.peerOf op ≠ some rank := by
  intro op hop
  unfold Alltoallw.asyncRecvOps at hop
  split at hop
  · simp only [List.mem_filterMap] at hop
    obtain ⟨j, _, hjop⟩ := hop
    by_cases h : j = rank
    · simp [h] at hjop
    · simp only [if_pos h, Option.some.injEq] at hjop
      subst hjop
      simp [Op.peerOf, h]
  · simp at hop

/-- Helper: every send posted by the point-to-point strategy of
`alltoallw.c` names a peer other than the local rank. -/
theorem Alltoallw.asyncSendOpsFrom_ne_self ( ratio : Nat) (rank len gap : Nat) :
    ∀ (js : List Nat) (ptr : Nat),
      ∀ op ∈ Alltoallw.asyncSendOpsFrom ratio rank len gap js ptr,
        Op.peerOf op ≠ some rank := by
  intro js
  induction js with
  | nil =>
    intro ptr op hop
    simp [Alltoallw.asyncSendOpsFrom] at hop
  | cons j js ih =>
    intro ptr op hop
    unfold Alltoallw.asyncSendOpsFrom at hop
    by_cases hj : j % ratio = 0
    · simp only [if_pos hj, List.mem_append] at hop
      rcases hop with hop | hop
      · by_cases hr : rank = j
        · simp [hr] at hop
        · simp only [if_pos hr, List.mem_singleton] at hop
          subst hop
          simp only [Op.peerOf, ne_eq, Option.some.injEq]
          intro hh
          exact hr hh.symm
      · exact ih _ op hop
    · simp only [if_neg hj] at hop
      exact ih _ op hop

/-- C2 (claim as stated is false): `MPI/alltomany.c` does not exclude
self-pairing.  With 4 processes, ratio 2 and the default message length 48,
rank 0 is a receiver and its iteration posts `MPI_Irecv` naming peer 0 — its
own rank — as well as a send to itself. -/
theorem claim2_counterexample :
    Alltomany.is_recver 2 2 0 = true ∧
    Op.irecv 0 48 0 ∈ Alltomany.iterOps 4 2 2 (Alltomany.is_recver 2 2 0) false 48 ∧
    Op.peerOf (Op.irecv 0 48 0) = some 0 ∧
    Op.isend 0 48 (48 * 4) ∈ Alltomany.iterOps 4 2 2 (Alltomany.is_recver 2 2 0) false 48 := by
  decide

/-- C2 (amended): in the synthetic `alltoallw.c` benchmark both transport
strategies exclude self-pairing for every process, receiver configuration
and iteration: no operation of the point-to-point iteration names the local
rank as its peer, and the `alltoallw` count arrays are zero at the local
rank.  (`MPI/alltomany.c`, by contrast, does post self-directed transfers.) -/
theorem claim2_amended (nprocs rank : Nat) ( ratio : Nat) (isr : Bool) (len gap ptr0 : Nat) :
    (∀ op ∈ Alltoallw.run_async_iter nprocs rank ratio isr len gap ptr0,
        Op.peerOf op ≠ some rank) ∧
    Alltoallw.sendCounts rank ratio len rank = 0 ∧
    Alltoallw.recvCounts rank isr len rank = 0 := by
  refine ⟨?_, by simp [Alltoallw.sendCounts], by simp [Alltoallw.recvCounts]⟩
  intro op hop
  simp only [Alltoallw.run_async_iter, List.mem_append, List.mem_singleton] at hop
  rcases hop with (hop | hop) | hop
  · exact Alltoallw.asyncRecvOps_ne_self nprocs rank isr len gap op hop
  · exact Alltoallw.asyncSendOpsFrom_ne_self ratio rank len gap _ _ op hop
  · subst hop
    simp [Op.peerOf]

/-- C2 witness: the amended theorem applied at a concrete configuration:
with 4 processes, ratio 2, rank 0 a receiver, the posted receive from peer 1
indeed names a peer different from the local rank. -/
theorem claim2_witness :
    Op.peerOf (Op.irecv 1 16 20) ≠ some 0 :=
  (claim2_amended 4 0 2 true 16 4 0).1 (Op.irecv 1 16 20) (by decide)

/-- Helper: `filterAmnt` on a cons. -/
theorem TraceAlltomany.filterAmnt_cons (nprocs r a : Nat) (l : TraceAlltomany.Pairs) :
    TraceAlltomany.filterAmnt nprocs ((r, a) :: l) =
      if r < nprocs then a + TraceAlltomany.filterAmnt nprocs l
      else TraceAlltomany.filterAmnt nprocs l := by
  by_cases h : r < nprocs <;> simp [TraceAlltomany.filterAmnt, List.filter_cons, h]

/-- Helper: `breakAmnt` on a cons. -/
theorem TraceAlltomany.breakAmnt_cons (nprocs r a : Nat) (l : TraceAlltomany.Pairs) :
    TraceAlltomany.breakAmnt nprocs ((r, a) :: l) =
      if r < nprocs then a + TraceAlltomany.breakAmnt nprocs l else 0 := by
  by_cases h : r < nprocs <;> simp [TraceAlltomany.breakAmnt, List.takeWhile_cons, h]

/-- Helper: when every in-range peer precedes every out-of-range peer, the
amount the strategies transfer (skip-and-continue) equals the amount `main`
sized the buffer with (stop-at-first). -/
theorem TraceAlltomany.filterAmnt_eq_breakAmnt (nprocs : Nat) (l : TraceAlltomany.Pairs)
    (h : l.Pairwise (fun e1 e2 => nprocs ≤ e1.1 → nprocs ≤ e2.1)) :
    TraceAlltomany.filterAmnt nprocs l = TraceAlltomany.breakAmnt nprocs l := by
  induction l with
  | nil => rfl
  | cons e rest ih =>
    obtain ⟨r, a⟩ := e
    rw [List.pairwise_cons] at h
    rw [TraceAlltomany.filterAmnt_cons, TraceAlltomany.breakAmnt_cons]
    by_cases hr : r < nprocs
    · rw [if_pos hr, if_pos hr, ih h.2]
    · rw [if_neg hr, if_neg hr]
      have hnil : rest.filter (fun e => decide (e.1 < nprocs)) = [] := by
        rw [List.filter_eq_nil_iff]
        intro e he
        simp only [decide_eq_true_eq, Nat.not_lt]
        exact h.1 e he (Nat.le_of_not_lt hr)
      simp [TraceAlltomany.filterAmnt, hnil]

/-- Helper: dropping out-of-range peers never increases the byte amount
beyond what the trace declares. -/
theorem TraceAlltomany.filterAmnt_le_declaredAmnt (nprocs : Nat)
    (l : TraceAlltomany.Pairs) :
    TraceAlltomany.filterAmnt nprocs l ≤ TraceAlltomany.declaredAmnt l := by
  induction l with
  | nil => simp [TraceAlltomany.filterAmnt, TraceAlltomany.declaredAmnt]
  | cons e rest ih =>
    obtain ⟨r, a⟩ := e
    rw [TraceAlltomany.filterAmnt_cons]
    simp only [TraceAlltomany.declaredAmnt, List.map_cons, List.sum_cons]
    by_cases h : r < nprocs
    · rw [if_pos h]
      exact Nat.add_le_add_left ih a
    · rw [if_neg h]
      exact ih.trans (Nat.le_add_left _ _)

/-- Helper: every send posted by the trace-replay point-to-point strategy
stays within `ptr + filterAmnt` of the iteration's send list. -/
theorem TraceAlltomany.sendOpsFrom_endOff_le (nprocs : Nat) (l : TraceAlltomany.Pairs) :
    ∀ ptr, ∀ op ∈ TraceAlltomany.sendOpsFrom nprocs l ptr,
      Op.endOff op ≤ ptr + TraceAlltomany.filterAmnt nprocs l := by
  induction l with
  | nil =>
    intro ptr op hop
    simp [TraceAlltomany.sendOpsFrom] at hop
  | cons e rest ih =>
    obtain ⟨r, a⟩ := e
    intro ptr op hop
    rw [TraceAlltomany.filterAmnt_cons]
    unfold TraceAlltomany.sendOpsFrom at hop
    by_cases h : r < nprocs
    · rw [if_pos h]
      simp only [if_pos h, List.mem_cons] at hop
      rcases hop with rfl | hop
      · simp only [Op.endOff]
        omega
      · have := ih (ptr + a) op hop
        omega
    · rw [if_neg h]
      simp only [if_neg h] at hop
      exact ih ptr op hop

/-- Helper: every receive posted by the trace-replay point-to-point strategy
stays within `ptr + filterAmnt` of the iteration's receive list. -/
theorem TraceAlltomany.recvOpsFrom_endOff_le (nprocs : Nat) (l : TraceAlltomany.Pairs) :
    ∀ ptr, ∀ op ∈ TraceAlltomany.recvOpsFrom nprocs l ptr,
      Op.endOff op ≤ ptr + TraceAlltomany.filterAmnt nprocs l := by
  induction l with
  | nil =>
    intro ptr op hop
    simp [TraceAlltomany.recvOpsFrom] at hop
  | cons e rest ih =>
    obtain ⟨r, a⟩ := e
    intro ptr op hop
    rw [TraceAlltomany.filterAmnt_cons]
    unfold TraceAlltomany.recvOpsFrom at hop
    by_cases h : r < nprocs
    · rw [if_pos h]
      simp only [if_pos h, List.mem_cons] at hop
      rcases hop with rfl | hop
      · simp only [Op.endOff]
        omega
      · have := ih (ptr + a) op hop
        omega
    · rw [if_neg h]
      simp only [if_neg h] at hop
      exact ih ptr op hop

/-- Helper: the initial value is dominated by a `foldl Nat.max`. -/
theorem natFoldlMax_le_init (l : List Nat) : ∀ b, b ≤ l.foldl Nat.max b := by
  induction l with
  | nil => intro b; exact Nat.le_refl b
  | cons x xs ih =>
    intro b
    simp only [List.foldl_cons]
    exact (Nat.le_max_left b x).trans (ih (Nat.max b x))

/-- Helper: every member is dominated by a `foldl Nat.max`. -/
theorem mem_le_natFoldlMax (l : List Nat) : ∀ b, ∀ a ∈ l, a ≤ l.foldl Nat.max b := by
  induction l with
  | nil =>
    intro b a ha
    simp at ha
  | cons x xs ih =>
    intro b a ha
    simp only [List.mem_cons] at ha
    simp only [List.foldl_cons]
    rcases ha with rfl | ha
    · exact (Nat.le_max_right b a).trans (natFoldlMax_le_init xs _)
    · exact ih _ a ha

/-- Helper: all receives of the trace-replay strategy name in-range peers. -/
theorem TraceAlltomany.recvOpsFrom_peer_lt (nprocs : Nat) (l : TraceAlltomany.Pairs) :
    ∀ ptr, ∀ op ∈ TraceAlltomany.recvOpsFrom nprocs l ptr,
      ∀ p, Op.peerOf op = some p → p < nprocs := by
  induction l with
  | nil =>
    intro ptr op hop
    simp [TraceAlltomany.recvOpsFrom] at hop
  | cons e rest ih =>
    obtain ⟨r, a⟩ := e
    intro ptr op hop p hp
    unfold TraceAlltomany.recvOpsFrom at hop
    by_cases h : r < nprocs
    · simp only [if_pos h, List.mem_cons] at hop
      rcases hop with rfl | hop
      · simp only [Op.peerOf, Option.some.injEq] at hp
        omega
      · exact ih _ op hop p hp
    · simp only [if_neg h] at hop
      exact ih _ op hop p hp

/-- Helper: all sends of the trace-replay strategy name in-range peers. -/
theorem TraceAlltomany.sendOpsFrom_peer_lt (nprocs : Nat) (l : TraceAlltomany.Pairs) :
    ∀ ptr, ∀ op ∈ TraceAlltomany.sendOpsFrom nprocs l ptr,
      ∀ p, Op.peerOf op = some p → p < nprocs := by
  induction l with
  | nil =>
    intro ptr op hop
    simp [TraceAlltomany.sendOpsFrom] at hop
  | cons e rest ih =>
    obtain ⟨r, a⟩ := e
    intro ptr op hop p hp
    unfold TraceAlltomany.sendOpsFrom at hop
    by_cases h : r < nprocs
    · simp only [if_pos h, List.mem_cons] at hop
      rcases hop with rfl | hop
      · simp only [Op.peerOf, Option.some.injEq] at hp
        omega
      · exact ih _ op hop p hp
    · simp only [if_neg h] at hop
      exact ih _ op hop p hp

/-- Helper: all descriptor entries built for `MPI_Alltoallw` in the
trace-replay program name in-range peers. -/
theorem TraceAlltomany.buildDescr_peer_lt (nprocs : Nat) (l : TraceAlltomany.Pairs) :
    ∀ d, ∀ e ∈ TraceAlltomany.buildDescr nprocs l d, e.1 < nprocs := by
  induction l with
  | nil =>
    intro d e he
    simp [TraceAlltomany.buildDescr] at he
  | cons x rest ih =>
    obtain ⟨r, a⟩ := x
    intro d e he
    unfold TraceAlltomany.buildDescr at he
    by_cases h : r < nprocs
    · simp only [if_pos h, List.mem_cons] at he
      rcases he with rfl | he
      · exact h
      · exact ih _ e he
    · simp only [if_neg h] at he
      exact ih _ e he

/-- C3: in the trace-replay variant, provided that in the iteration's sender
list every in-range peer precedes every out-of-range peer, the send-buffer
size computed by `main` (accumulating amounts but stopping at the first peer
with recorded rank `>= nprocs`) is at least the total the strategies send in
that iteration (they skip individual out-of-range peers and keep scanning),
and no posted send of the point-to-point strategy reaches past that size. -/
theorem claim3_confirmed (nprocs : Nat) (l : TraceAlltomany.Pairs)
    (h : l.Pairwise (fun e1 e2 => nprocs ≤ e1.1 → nprocs ≤ e2.1)) :
    TraceAlltomany.filterAmnt nprocs l ≤ TraceAlltomany.breakAmnt nprocs l ∧
    ∀ op ∈ TraceAlltomany.sendOpsFrom nprocs l 0,
      Op.endOff op ≤ TraceAlltomany.breakAmnt nprocs l := by
  have he := TraceAlltomany.filterAmnt_eq_breakAmnt nprocs l h
  refine ⟨he.le, ?_⟩
  intro op hop
  have hb := TraceAlltomany.sendOpsFrom_endOff_le nprocs l 0 op hop
  omega

/-- C3 witness: a concrete sender list in which the in-range peer precedes
the out-of-range one. -/
theorem claim3_witness :
    TraceAlltomany.filterAmnt 4 [(1, 5), (9, 7)] ≤
      TraceAlltomany.breakAmnt 4 [(1, 5), (9, 7)] :=
  (claim3_confirmed 4 [(1, 5), (9, 7)] (by decide)).1

/-- C4 (claim as stated is false): when an in-range peer follows an
out-of-range peer in a receive list, the buffer sizing in `main` (which
stops at the first out-of-range peer) undercounts the receives the strategy
posts (which skips it and keeps scanning).  With `nprocs = 4` and the single
iteration receive list `[(5, 10), (0, 10)]` the allocated size is 0, yet the
strategy posts a receive of bytes `[0, 10)` into the buffer. -/
theorem claim4_counterexample :
    TraceAlltomany.recv_amnt 4 [[(5, 10), (0, 10)]] = 0 ∧
    Op.irecv 0 10 0 ∈ TraceAlltomany.recvOpsFrom 4 [(5, 10), (0, 10)] 0 ∧
    Op.endOff (Op.irecv 0 10 0) = 10 := by decide

/-- C4 (amended): the receive buffer is a single region reused every
iteration, sized to the largest per-iteration receive amount (each computed
with the stop-at-first-out-of-range rule); provided that in the iteration's
receive list every in-range peer precedes every out-of-range peer, every
receive posted into it stays within that allocated size. -/
theorem claim4_amended (nprocs : Nat) (iters : List TraceAlltomany.Pairs)
    (l : TraceAlltomany.Pairs) (hmem : l ∈ iters)
    (h : l.Pairwise (fun e1 e2 => nprocs ≤ e1.1 → nprocs ≤ e2.1)) :
    ∀ op ∈ TraceAlltomany.recvOpsFrom nprocs l 0,
      Op.endOff op ≤ TraceAlltomany.recv_amnt nprocs iters := by
  intro op hop
  have h1 := TraceAlltomany.recvOpsFrom_endOff_le nprocs l 0 op hop
  have h2 := TraceAlltomany.filterAmnt_eq_breakAmnt nprocs l h
  have h3 : TraceAlltomany.breakAmnt nprocs l ≤ TraceAlltomany.recv_amnt nprocs iters :=
    mem_le_natFoldlMax _ 0 _ (List.mem_map_of_mem _ hmem)
  omega

/-- C4 witness: a concrete well-ordered receive list of one iteration. -/
theorem claim4_witness :
    Op.endOff (Op.irecv 1 5 0) ≤ TraceAlltomany.recv_amnt 4 [[(1, 5), (9, 7)]] :=
  claim4_amended 4 [[(1, 5), (9, 7)]] [(1, 5), (9, 7)] (by decide) (by decide)
    (Op.irecv 1 5 0) (by decide)

/-- C8: replaying a trace recorded at a larger process count, both transport
strategies of `trace_alltomany.c` drop every peer entry with recorded rank
`>= nprocs`: every posted point-to-point operation and every `MPI_Alltoallw`
descriptor entry names an in-range peer, and the per-iteration byte amounts
counted (in-range only) never exceed what the trace declares for this
process and iteration, for either direction. -/
theorem claim8_confirmed (nprocs : Nat) (s r : TraceAlltomany.Pairs) :
    (∀ op ∈ TraceAlltomany.run_async_iter nprocs s r,
        ∀ p, Op.peerOf op = some p → p < nprocs) ∧
    (∀ e ∈ TraceAlltomany.buildDescr nprocs r 0, e.1 < nprocs) ∧
    (∀ e ∈ TraceAlltomany.buildDescr nprocs s 0, e.1 < nprocs) ∧
    TraceAlltomany.filterAmnt nprocs r ≤ TraceAlltomany.declaredAmnt r ∧
    TraceAlltomany.filterAmnt nprocs s ≤ TraceAlltomany.declaredAmnt s := by
  refine ⟨?_, TraceAlltomany.buildDescr_peer_lt nprocs r 0,
    TraceAlltomany.buildDescr_peer_lt nprocs s 0,
    TraceAlltomany.filterAmnt_le_declaredAmnt nprocs r,
    TraceAlltomany.filterAmnt_le_declaredAmnt nprocs s⟩
  intro op hop p hp
  simp only [TraceAlltomany.run_async_iter, List.mem_append, List.mem_singleton] at hop
  rcases hop with (hop | hop) | hop
  · exact TraceAlltomany.recvOpsFrom_peer_lt nprocs r 0 op hop p hp
  · exact TraceAlltomany.sendOpsFrom_peer_lt nprocs s 0 op hop p hp
  · subst hop
    simp [Op.peerOf] at hp

/-- C8 witness: a concrete replay at 4 processes of a trace naming peer 9. -/
theorem claim8_witness :
    TraceAlltomany.filterAmnt 4 [(1, 7), (9, 9)] ≤
      TraceAlltomany.declaredAmnt [(1, 7), (9, 9)] :=
  (claim8_confirmed 4 [(0, 3)] [(1, 7), (9, 9)]).2.2.2.1

/-- Helper: everything posted by the receive loop of `alltoallw.c`'s
point-to-point strategy is a non-blocking receive. -/
theorem Alltoallw.asyncRecvOps_isIrecv (nprocs rank : Nat) (isr : Bool) (len gap : Nat) :
    ∀ op ∈ Alltoallw.asyncRecvOps nprocs rank isr len gap, Op.isIrecv op = true := by
  intro op hop
  unfold Alltoallw.asyncRecvOps at hop
  split at hop
  · simp only [List.mem_filterMap] at hop
    obtain ⟨j, _, hjop⟩ := hop
    by_cases h : j = rank
    · simp [h] at hjop
    · simp only [if_pos h, Option.some.injEq] at hjop
      subst hjop
      rfl
  · simp at hop

/-- Helper: everything posted by the send loop of `alltoallw.c`'s
point-to-point strategy is a non-blocking synchronous-mode send. -/
theorem Alltoallw.asyncSendOpsFrom_isIssend ( ratio : Nat) (rank len gap : Nat) :
    ∀ (js : List Nat) (ptr : Nat),
      ∀ op ∈ Alltoallw.asyncSendOpsFrom ratio rank len gap js ptr,
        Op.isIssend op = true := by
  intro js
  induction js with
  | nil =>
    intro ptr op hop
    simp [Alltoallw.asyncSendOpsFrom] at hop
  | cons j js ih =>
    intro ptr op hop
    unfold Alltoallw.asyncSendOpsFrom at hop
    by_cases hj : j % ratio = 0
    · simp only [if_pos hj, List.mem_append] at hop
      rcases hop with hop | hop
      · by_cases hr : rank = j
        · simp [hr] at hop
        · simp only [if_pos hr, List.mem_singleton] at hop
          subst hop
          rfl
      · exact ih _ op hop
    · simp only [if_neg hj] at hop
      exact ih _ op hop

/-- Helper: everything posted by the receive loop of `trace_alltomany.c`'s
point-to-point strategy is a non-blocking receive. -/
theorem TraceAlltomany.recvOpsFrom_isIrecv (nprocs : Nat) (l : TraceAlltomany.Pairs) :
    ∀ ptr, ∀ op ∈ TraceAlltomany.recvOpsFrom nprocs l ptr, Op.isIrecv op = true := by
  induction l with
  | nil =>
    intro ptr op hop
    simp [TraceAlltomany.recvOpsFrom] at hop
  | cons e rest ih =>
    obtain ⟨r, a⟩ := e
    intro ptr op hop
    unfold TraceAlltomany.recvOpsFrom at hop
    by_cases h : r < nprocs
    · simp only [if_pos h, List.mem_cons] at hop
      rcases hop with rfl | hop
      · rfl
      · exact ih _ op hop
    · simp only [if_neg h] at hop
      exact ih _ op hop

/-- Helper: everything posted by the send loop of `trace_alltomany.c`'s
point-to-point strategy is a non-blocking synchronous-mode send. -/
theorem TraceAlltomany.sendOpsFrom_isIssend (nprocs : Nat) (l : TraceAlltomany.Pairs) :
    ∀ ptr, ∀ op ∈ TraceAlltomany.sendOpsFrom nprocs l ptr, Op.isIssend op = true := by
  induction l with
  | nil =>
    intro ptr op hop
    simp [TraceAlltomany.sendOpsFrom] at hop
  | cons e rest ih =>
    obtain ⟨r, a⟩ := e
    intro ptr op hop
    unfold TraceAlltomany.sendOpsFrom at hop
    by_cases h : r < nprocs
    · simp only [if_pos h, List.mem_cons] at hop
      rcases hop with rfl | hop
      · rfl
      · exact ih _ op hop
    · simp only [if_neg h] at hop
      exact ih _ op hop

/-- C9 (claim as stated is false): `MPI/alltomany.c` — one of the cited
point-to-point implementations — does not use synchronous-mode sends by
default (without `-s` it posts `MPI_Isend`), and the trace-replay strategy
does not skip self: a rank-0 process whose receive list names rank 0 posts a
self-directed receive.  Concretely, the alltomany iteration of a
non-receiver (rank 1, 4 processes, ratio 2, default length 48) contains a
standard-mode `MPI_Isend` and no `MPI_Issend`. -/
theorem claim9_counterexample :
    Op.isend 0 48 0 ∈ Alltomany.iterOps 4 2 2 (Alltomany.is_recver 2 2 1) false 48 ∧
    (∀ op ∈ Alltomany.iterOps 4 2 2 (Alltomany.is_recver 2 2 1) false 48,
      Op.isIssend op = false) ∧
    Op.irecv 0 8 0 ∈ TraceAlltomany.run_async_iter 4 [] [(0, 8)] := by decide

/-- C9 (amended): in every iteration of the point-to-point strategy of both
benchmark programs, the process first posts all its non-blocking receives,
then all its non-blocking synchronous-mode sends, then blocks in one single
combined wait covering every posted operation, before any operation of the
next iteration; the synthetic benchmark (`alltoallw.c`) additionally skips
self on both sides, while the trace-replay variant skips only out-of-range
peers (posting self transfers if the trace lists them), and
`MPI/alltomany.c` uses synchronous-mode sends only under its `-s` option. -/
theorem claim9_amended (nprocs rank : Nat) ( ratio : Nat) (isr : Bool)
    (len gap ptr0 : Nat) (s r : TraceAlltomany.Pairs) :
    (∃ rops sops,
      Alltoallw.run_async_iter nprocs rank ratio isr len gap ptr0 =
        rops ++ sops ++ [Op.waitall (rops.length + sops.length)] ∧
      (∀ op ∈ rops, Op.isIrecv op = true ∧ Op.peerOf op ≠ some rank) ∧
      (∀ op ∈ sops, Op.isIssend op = true ∧ Op.peerOf op ≠ some rank)) ∧
    (∃ rops sops,
      TraceAlltomany.run_async_iter nprocs s r =
        rops ++ sops ++ [Op.waitall (rops.length + sops.length)] ∧
      (∀ op ∈ rops, Op.isIrecv op = true) ∧
      (∀ op ∈ sops, Op.isIssend op = true)) := by
  constructor
  · refine ⟨Alltoallw.asyncRecvOps nprocs rank isr len gap,
      Alltoallw.asyncSendOpsFrom ratio rank len gap (List.range nprocs) ptr0,
      rfl, ?_, ?_⟩
    · intro op hop
      exact ⟨Alltoallw.asyncRecvOps_isIrecv nprocs rank isr len gap op hop,
        Alltoallw.asyncRecvOps_ne_self nprocs rank isr len gap op hop⟩
    · intro op hop
      exact ⟨Alltoallw.asyncSendOpsFrom_isIssend ratio rank len gap _ _ op hop,
        Alltoallw.asyncSendOpsFrom_ne_self ratio rank len gap _ _ op hop⟩
  · refine ⟨TraceAlltomany.recvOpsFrom nprocs r 0,
      TraceAlltomany.sendOpsFrom nprocs s 0, rfl, ?_, ?_⟩
    · intro op hop
      exact TraceAlltomany.recvOpsFrom_isIrecv nprocs r 0 op hop
    · intro op hop
      exact TraceAlltomany.sendOpsFrom_isIssend nprocs s 0 op hop

/-- C9 witness: the amended structure at a concrete trace iteration. -/
theorem claim9_witness :
    ∃ rops sops,
      TraceAlltomany.run_async_iter 4 [(2, 6)] [(1, 5)] =
        rops ++ sops ++ [Op.waitall (rops.length + sops.length)] ∧
      (∀ op ∈ rops, Op.isIrecv op = true) ∧
      (∀ op ∈ sops, Op.isIssend op = true) :=
  (claim9_amended 4 0 2 true 16 4 0 [(2, 6)] [(1, 5)]).2

/-- Helper: the scanning loop of `check_recv_buf` always returns error
counter 0, logs at most one index pair, and logs nothing exactly when every
scanned position matches the expected contents. -/
theorem Alltoallw.check_recv_buf_go_spec (recvBuf : Nat → Int) (rank len gap : Nat) :
    ∀ idx : List (Nat × Nat),
      (Alltoallw.check_recv_buf_go recvBuf rank len gap idx).err = 0 ∧
      (Alltoallw.check_recv_buf_go recvBuf rank len gap idx).log.length ≤ 1 ∧
      ((Alltoallw.check_recv_buf_go recvBuf rank len gap idx).log = [] ↔
        ∀ p ∈ idx, recvBuf (p.1 * (len + gap) + p.2) = Alltoallw.expect rank len p.1 p.2) := by
  intro idx
  induction idx with
  | nil => simp [Alltoallw.check_recv_buf_go]
  | cons p rest ih =>
    obtain ⟨i, j⟩ := p
    unfold Alltoallw.check_recv_buf_go
    by_cases h : recvBuf (i * (len + gap) + j) ≠ Alltoallw.expect rank len i j
    · rw [if_pos h]
      refine ⟨rfl, by simp, ?_⟩
      simp only [List.mem_cons]
      constructor
      · intro hc
        simp at hc
      · intro hall
        exact absurd (hall (i, j) (Or.inl rfl)) h
    · rw [if_neg h]
      push_neg at h
      refine ⟨ih.1, ih.2.1, ?_⟩
      rw [ih.2.2]
      constructor
      · intro hall p hp
        rcases List.mem_cons.mp hp with rfl | hp
        · exact h
        · exact hall p hp
      · intro hall p hp
        exact hall p (List.mem_cons_of_mem _ hp)

/-- C6 (claim as stated is false): `check_recv_buf` does not log every
mismatch and does not count mismatches: on the first mismatch it prints that
one offending index pair and jumps to `err_out`, returning the error counter
still at 0.  With 2 processes, rank 0, `len = 1`, `gap = 0` and a buffer
whose every entry is wrong (constant −9), two positions mismatch, yet
exactly one is logged and the returned count is 0. -/
theorem claim6_counterexample :
    (Alltoallw.mismatchList (fun _ => -9) 2 0 1 0).length = 2 ∧
    (Alltoallw.check_recv_buf (fun _ => -9) 2 0 1 0).log.length = 1 ∧
    (Alltoallw.check_recv_buf (fun _ => -9) 2 0 1 0).err = 0 := by decide

/-- C6 (amended): in debug-enabled runs, after each iteration on a receiver
the receive buffer is compared element-wise against the expected values —
each non-self peer segment holds that sender's rank, the gap positions and
the self segment keep the initialization sentinel −3; the scan stops at the
first mismatch, which is logged with its offending indices; the mismatch
counter is never incremented (the check always returns 0), and the run
continues regardless.  Formally: the error result is always 0, at most one
index pair is logged, nothing is logged exactly when the buffer is free of
mismatches, and the expected value is the sender rank on non-self message
positions and −3 on gap and self positions. -/
theorem claim6_amended (recvBuf : Nat → Int) (nprocs rank len gap : Nat) :
    (Alltoallw.check_recv_buf recvBuf nprocs rank len gap).err = 0 ∧
    (Alltoallw.check_recv_buf recvBuf nprocs rank len gap).log.length ≤ 1 ∧
    ((Alltoallw.check_recv_buf recvBuf nprocs rank len gap).log = [] ↔
      Alltoallw.mismatchList recvBuf nprocs rank len gap = []) ∧
    (∀ i j, i ≠ rank → j < len → Alltoallw.expect rank len i j = (i : Int)) ∧
    (∀ i j, i = rank ∨ len ≤ j → Alltoallw.expect rank len i j = -3) := by
  have hgo := Alltoallw.check_recv_buf_go_spec recvBuf rank len gap
    (Alltoallw.allIdx nprocs len gap)
  refine ⟨hgo.1, hgo.2.1, ?_, ?_, ?_⟩
  · rw [Alltoallw.check_recv_buf, hgo.2.2, Alltoallw.mismatchList,
      List.filter_eq_nil_iff]
    constructor
    · intro hall p hp
      simp only [decide_eq_true_eq, not_not]
      exact hall p hp
    · intro hall p hp
      have := hall p hp
      simp only [decide_eq_true_eq, not_not] at this
      exact this
  · intro i j hi hj
    simp [Alltoallw.expect, hi, hj]
  · intro i j hij
    rcases hij with rfl | hj
    · simp [Alltoallw.expect]
    · simp [Alltoallw.expect, Nat.not_lt.mpr hj]

/-- C6 witness: on a non-self message position the expected value is the
sender's rank. -/
theorem claim6_witness :
    Alltoallw.expect 0 1 1 0 = (1 : Int) :=
  (claim6_amended (fun _ => -9) 2 0 1 0).2.2.2.1 1 0 (by decide) (by decide)

/-- Helper: the bucket length is the ceiling of `ntimes / 10`. -/
theorem TraceAlltomany.bucket_len_eq_ceil (ntimes : Nat) :
    TraceAlltomany.bucket_len ntimes = (ntimes + 9) / 10 := by
  unfold TraceAlltomany.bucket_len
  by_cases h : ntimes % 10 = 0
  · simp only [h, if_pos]
    omega
  · rw [if_neg h]
    omega

/-- Helper: the bucket length is positive once there is an iteration. -/
theorem TraceAlltomany.bucket_len_pos (ntimes : Nat) (h : 0 < ntimes) :
    0 < TraceAlltomany.bucket_len ntimes := by
  unfold TraceAlltomany.bucket_len
  by_cases h10 : ntimes % 10 = 0
  · simp only [h10, if_pos]
    omega
  · rw [if_neg h10]
    omega

/-- Helper: ten buckets cover all iterations. -/
theorem TraceAlltomany.le_ten_mul_bucket_len (ntimes : Nat) :
    ntimes ≤ 10 * TraceAlltomany.bucket_len ntimes := by
  unfold TraceAlltomany.bucket_len
  by_cases h : ntimes % 10 = 0
  · simp only [h, if_pos]
    omega
  · rw [if_neg h]
    omega

/-- Helper: every in-loop bucket write of the timing loop targets a slot in
`1..9`. -/
theorem TraceAlltomany.bucket_slot_bounds (ntimes j : Nat) (h0 : 0 < j)
    (hj : j < ntimes) (hm : j % TraceAlltomany.bucket_len ntimes = 0) :
    1 ≤ j / TraceAlltomany.bucket_len ntimes ∧
    j / TraceAlltomany.bucket_len ntimes ≤ 9 := by
  have hpos : 0 < TraceAlltomany.bucket_len ntimes :=
    TraceAlltomany.bucket_len_pos ntimes (Nat.lt_of_lt_of_le h0 (Nat.le_of_lt hj))
  constructor
  · rw [Nat.one_le_div_iff hpos]
    exact Nat.le_of_dvd h0 (Nat.dvd_of_mod_eq_zero hm)
  · have hten := TraceAlltomany.le_ten_mul_bucket_len ntimes
    have : j / TraceAlltomany.bucket_len ntimes < 10 := by
      rw [Nat.div_lt_iff_lt_mul hpos]
      omega
    omega

/-- Helper: a slot the loop never writes keeps its initial value. -/
theorem TraceAlltomany.timingLoopGo_ne (bl : Nat) (T : Nat → Nat) :
    ∀ (l : List Nat) (acc : (Nat → Nat) × Nat) (k : Nat),
      (∀ j ∈ l, 0 < j → j % bl = 0 → j / bl ≠ k) →
      (TraceAlltomany.timingLoopGo bl T l acc).1 k = acc.1 k := by
  intro l
  induction l with
  | nil => intro acc k _; rfl
  | cons j js ih =>
    intro acc k h
    unfold TraceAlltomany.timingLoopGo
    by_cases hc : 0 < j ∧ j % bl = 0
    · rw [if_pos hc]
      rw [ih _ k (fun x hx => h x (List.mem_cons_of_mem _ hx))]
      simp only [Function.update_apply]
      rw [if_neg (fun hk => (h j (List.mem_cons_self _ _) hc.1 hc.2) hk.symm)]
    · rw [if_neg hc]
      exact ih _ k (fun x hx => h x (List.mem_cons_of_mem _ hx))

/-- C5 (claim as stated is false): the recorded timing sample is not 10
per-bucket elapsed times plus a separate end-to-end total — slot 0 of the
single 10-slot array holds the end-to-end total itself.  With `ntimes = 20`
and a clock advancing one tick per iteration, slot 0 holds 20 (the whole
timed region) while bucket 0's elapsed time under the claimed scheme
(`ceil(20/10) = 2` iterations per bucket) would be 2. -/
theorem claim5_counterexample :
    TraceAlltomany.timingFinal 20 (fun n => n) 0 = 20 ∧
    TraceAlltomany.specBucketTime 20 (fun n => n) 0 = 2 ∧
    TraceAlltomany.timingFinal 20 (fun n => n) 0 ≠
      TraceAlltomany.specBucketTime 20 (fun n => n) 0 := by decide

/-- C5 (amended): the timing aggregator divides the `ntimes` iterations at
boundaries that are multiples of `bucket_len = ceil(ntimes/10)` iterations;
the recorded sample is one 10-slot array in which slot 0 holds the
end-to-end total of the whole timed region, the in-loop per-bucket elapsed
times land only in slots 1 through 9 (at most 9 of them), and no slot
outside 0..9 is ever written. -/
theorem claim5_amended (ntimes : Nat) (T : Nat → Nat) :
    TraceAlltomany.bucket_len ntimes = (ntimes + 9) / 10 ∧
    TraceAlltomany.timingFinal ntimes T 0 = T ntimes - T 0 ∧
    (∀ j, 0 < j → j < ntimes → j % TraceAlltomany.bucket_len ntimes = 0 →
      1 ≤ j / TraceAlltomany.bucket_len ntimes ∧
      j / TraceAlltomany.bucket_len ntimes ≤ 9) ∧
    (∀ k, 10 ≤ k → TraceAlltomany.timingFinal ntimes T k = 0) := by
  refine ⟨TraceAlltomany.bucket_len_eq_ceil ntimes, ?_, ?_, ?_⟩
  · simp [TraceAlltomany.timingFinal]
  · intro j h0 hj hm
    exact TraceAlltomany.bucket_slot_bounds ntimes j h0 hj hm
  · intro k hk
    unfold TraceAlltomany.timingFinal
    rw [Function.update_apply, if_neg (by omega : k ≠ 0),
      Function.update_apply, if_neg (by omega : k ≠ 9)]
    unfold TraceAlltomany.timingLoop
    rw [TraceAlltomany.timingLoopGo_ne]
    intro j hj hj0 hjm
    rw [List.mem_range] at hj
    have := TraceAlltomany.bucket_slot_bounds ntimes j hj0 hj hjm
    omega

/-- C5 witness: with 20 iterations the boundary at iteration 10 lands in a
slot between 1 and 9. -/
theorem claim5_witness :
    1 ≤ 10 / TraceAlltomany.bucket_len 20 ∧ 10 / TraceAlltomany.bucket_len 20 ≤ 9 :=
  (claim5_amended 20 (fun n => n)).2.2.1 10 (by decide) (by decide) (by decide)

/-- Helper: in `alltoallw.c`, the send ranges of two participating receivers
are disjoint and increasing: the earlier receiver's byte range ends no later
than the later receiver's displacement. -/
theorem Alltoallw.sendRanges_disjoint (rank : Nat) ( ratio : Nat) (len gap i1 i2 : Nat)
    (hlt : i1 < i2) (h1 : i1 % ratio = 0) (h2 : i2 % ratio = 0)
    (hr1 : i1 ≠ rank) (hr2 : i2 ≠ rank) (hrat : 0 < ratio) :
    Alltoallw.sendDisps rank ratio len gap i1 +
      Alltoallw.sizeofInt * Alltoallw.sendCounts rank ratio len i1 ≤
    Alltoallw.sendDisps rank ratio len gap i2 := by
  unfold Alltoallw.sendDisps Alltoallw.sendCounts Alltoallw.sizeofInt
  rw [if_pos ⟨h1, hr1⟩, if_pos ⟨h1, hr1⟩, if_pos ⟨h2, hr2⟩]
  obtain ⟨a, rfl⟩ := Nat.dvd_of_mod_eq_zero h1
  obtain ⟨b, rfl⟩ := Nat.dvd_of_mod_eq_zero h2
  rw [Nat.mul_div_cancel_left a hrat, Nat.mul_div_cancel_left b hrat]
  have hab : a + 1 ≤ b := Nat.lt_of_mul_lt_mul_left hlt
  have hgl : 4 * len ≤ (len + gap) * 4 := by omega
  calc (len + gap) * a * 4 + 4 * len
      ≤ (len + gap) * a * 4 + (len + gap) * 4 := Nat.add_le_add_left hgl _
    _ = (len + gap) * (a + 1) * 4 := by ring
    _ ≤ (len + gap) * b * 4 :=
        Nat.mul_le_mul (Nat.mul_le_mul (Nat.le_refl _) hab) (Nat.le_refl 4)

/-- Helper: in `alltoallw.c`, the receive ranges of two non-self peers of a
receiver are disjoint and increasing. -/
theorem Alltoallw.recvRanges_disjoint (rank : Nat) (isr : Bool) (len gap i1 i2 : Nat)
    (hlt : i1 < i2) (hr1 : i1 ≠ rank) (hr2 : i2 ≠ rank) :
    Alltoallw.recvDisps rank isr len gap i1 +
      Alltoallw.sizeofInt * Alltoallw.recvCounts rank isr len i1 ≤
    Alltoallw.recvDisps rank isr len gap i2 := by
  unfold Alltoallw.recvDisps Alltoallw.recvCounts Alltoallw.sizeofInt
  by_cases hisr : isr = true
  · rw [if_pos ⟨hisr, hr1⟩, if_pos ⟨hisr, hr1⟩, if_pos ⟨hisr, hr2⟩]
    have hgl : 4 * len ≤ (len + gap) * 4 := by omega
    calc (len + gap) * i1 * 4 + 4 * len
        ≤ (len + gap) * i1 * 4 + (len + gap) * 4 := Nat.add_le_add_left hgl _
      _ = (len + gap) * (i1 + 1) * 4 := by ring
      _ ≤ (len + gap) * i2 * 4 :=
          Nat.mul_le_mul (Nat.mul_le_mul (Nat.le_refl _) hlt) (Nat.le_refl 4)
  · have hf : ¬(isr = true ∧ i1 ≠ rank) := fun h => hisr h.1
    have hf2 : ¬(isr = true ∧ i2 ≠ rank) := fun h => hisr h.1
    rw [if_neg hf, if_neg hf, if_neg hf2]

/-- Helper: the descriptor entries built by `run_alltoallw` of
`trace_alltomany.c` are contiguous from the starting displacement: each
entry sits at the cursor and advances it by its count. -/
theorem TraceAlltomany.buildDescr_contig (nprocs : Nat) (l : TraceAlltomany.Pairs) :
    ∀ d, TraceAlltomany.contigFrom d (TraceAlltomany.buildDescr nprocs l d) := by
  induction l with
  | nil =>
    intro d
    exact trivial
  | cons e rest ih =>
    obtain ⟨r, a⟩ := e
    intro d
    unfold TraceAlltomany.buildDescr
    by_cases h : r < nprocs
    · rw [if_pos h]
      exact ⟨rfl, ih (d + a)⟩
    · rw [if_neg h]
      exact ih d

/-- Helper: the descriptor counts built by `run_alltoallw` of
`trace_alltomany.c` sum to the total participating (in-range) bytes. -/
theorem TraceAlltomany.buildDescr_sum (nprocs : Nat) (l : TraceAlltomany.Pairs) :
    ∀ d, ((TraceAlltomany.buildDescr nprocs l d).map (fun e => e.2.1)).sum =
      TraceAlltomany.filterAmnt nprocs l := by
  induction l with
  | nil =>
    intro d
    simp [TraceAlltomany.buildDescr, TraceAlltomany.filterAmnt]
  | cons e rest ih =>
    obtain ⟨r, a⟩ := e
    intro d
    rw [TraceAlltomany.filterAmnt_cons]
    unfold TraceAlltomany.buildDescr
    by_cases h : r < nprocs
    · rw [if_pos h, if_pos h]
      simp [ih]
    · rw [if_neg h, if_neg h]
      exact ih d

/-- C7 (claim as stated is false): the participating displacements do not in
general partition the local buffer.  With 2 processes, ratio 1, rank 0,
`len = 1` int and `gap = 1` int, the per-iteration send region is 16 bytes
and the only participating peer is rank 1 with byte range `[8, 12)`: byte 0
of the buffer lies in no participating range. -/
theorem claim7_counterexample :
    0 < Alltoallw.sendIterBytes 2 1 1 1 ∧
    Alltoallw.sendCounts 0 1 1 1 ≠ 0 ∧
    Alltoallw.coveredSend 2 0 1 1 1 0 = false := by decide

/-- C7 (amended): the descriptor builders produce count/displacement arrays
indexed by peer rank with zero counts for every non-participating peer, and
the participating peers occupy disjoint, increasing byte ranges — but these
ranges need not cover (partition) the whole local buffer: in the synthetic
benchmark consecutive ranges are separated by the configured gap, while in
the trace-replay builder consecutive ranges are contiguous from offset 0 and
their counts sum to the total participating bytes of the iteration. -/
theorem claim7_amended (nprocs rank : Nat) ( ratio : Nat) (isr : Bool)
    (len gap : Nat) (l : TraceAlltomany.Pairs) (hrat : 0 < ratio) :
    (∀ i, ¬(i % ratio = 0 ∧ i ≠ rank) → Alltoallw.sendCounts rank ratio len i = 0) ∧
    (∀ i, ¬(isr = true ∧ i ≠ rank) → Alltoallw.recvCounts rank isr len i = 0) ∧
    (∀ i1 i2, i1 < i2 → i1 % ratio = 0 → i2 % ratio = 0 → i1 ≠ rank → i2 ≠ rank →
      Alltoallw.sendDisps rank ratio len gap i1 +
        Alltoallw.sizeofInt * Alltoallw.sendCounts rank ratio len i1 ≤
      Alltoallw.sendDisps rank ratio len gap i2) ∧
    (∀ i1 i2, i1 < i2 → i1 ≠ rank → i2 ≠ rank →
      Alltoallw.recvDisps rank isr len gap i1 +
        Alltoallw.sizeofInt * Alltoallw.recvCounts rank isr len i1 ≤
      Alltoallw.recvDisps rank isr len gap i2) ∧
    TraceAlltomany.contigFrom 0 (TraceAlltomany.buildDescr nprocs l 0) ∧
    ((TraceAlltomany.buildDescr nprocs l 0).map (fun e => e.2.1)).sum =
      TraceAlltomany.filterAmnt nprocs l := by
  refine ⟨?_, ?_, ?_, ?_, TraceAlltomany.buildDescr_contig nprocs l 0,
    TraceAlltomany.buildDescr_sum nprocs l 0⟩
  · intro i hi
    exact if_neg hi
  · intro i hi
    exact if_neg hi
  · intro i1 i2 hlt h1 h2 hr1 hr2
    exact Alltoallw.sendRanges_disjoint rank ratio len gap i1 i2 hlt h1 h2 hr1 hr2 hrat
  · intro i1 i2 hlt hr1 hr2
    exact Alltoallw.recvRanges_disjoint rank isr len gap i1 i2 hlt hr1 hr2

/-- C7 witness: concrete disjointness of the send ranges of receivers 1 and
2 for rank 0, ratio 1, one-int messages with a one-int gap. -/
theorem claim7_witness :
    Alltoallw.sendDisps 0 1 1 1 1 + Alltoallw.sizeofInt * Alltoallw.sendCounts 0 1 1 1 ≤
      Alltoallw.sendDisps 0 1 1 1 2 :=
  (claim7_amended 2 0 1 true 1 1 [(0, 5)] (by decide)).2.2.1 1 2
    (by decide) (by decide) (by decide) (by decide) (by decide)

/-- Helper: every member of a list of naturals is at most the sum. -/
theorem mem_le_natSum (l : List Nat) : ∀ a ∈ l, a ≤ l.sum := by
  induction l with
  | nil =>
    intro a ha
    simp at ha
  | cons x xs ih =>
    intro a ha
    simp only [List.mem_cons, List.sum_cons] at ha ⊢
    rcases ha with rfl | ha
    · exact Nat.le_add_right a xs.sum
    · exact (ih a ha).trans (Nat.le_add_left _ _)

/-- Helper: summing the receive counts of the operations posted by one
trace-replay iteration gives exactly the in-range receive amount of that
iteration — the quantity `amnt` accumulates. -/
theorem TraceAlltomany.recvOpsFrom_recvCount_sum (nprocs : Nat)
    (l : TraceAlltomany.Pairs) :
    ∀ ptr, ((TraceAlltomany.recvOpsFrom nprocs l ptr).map Op.recvCount).sum =
      TraceAlltomany.filterAmnt nprocs l := by
  induction l with
  | nil =>
    intro ptr
    simp [TraceAlltomany.recvOpsFrom, TraceAlltomany.filterAmnt]
  | cons e rest ih =>
    obtain ⟨r, a⟩ := e
    intro ptr
    rw [TraceAlltomany.filterAmnt_cons]
    unfold TraceAlltomany.recvOpsFrom
    by_cases h : r < nprocs
    · rw [if_pos h, if_pos h]
      simp [Op.recvCount, ih]
    · rw [if_neg h, if_neg h]
      exact ih ptr

/-- Helper: the send operations of a trace-replay iteration contribute
nothing to the receive-count sum. -/
theorem TraceAlltomany.sendOpsFrom_recvCount_sum (nprocs : Nat)
    (l : TraceAlltomany.Pairs) :
    ∀ ptr, ((TraceAlltomany.sendOpsFrom nprocs l ptr).map Op.recvCount).sum = 0 := by
  induction l with
  | nil =>
    intro ptr
    simp [TraceAlltomany.sendOpsFrom]
  | cons e rest ih =>
    obtain ⟨r, a⟩ := e
    intro ptr
    unfold TraceAlltomany.sendOpsFrom
    by_cases h : r < nprocs
    · rw [if_pos h]
      simp [Op.recvCount, ih]
    · rw [if_neg h]
      exact ih ptr

/-- C10 (claim as stated is false): the per-process byte counter is not the
bytes the process places on the wire — it accumulates the in-range amounts
of the RECEIVE lists only.  A process with empty receive lists that sends
100 in-range bytes in its single iteration has counter 0, not 100. -/
theorem claim10_counterexample :
    TraceAlltomany.amntCounter 4 [[]] = 0 ∧
    TraceAlltomany.wireBytes 4 [[(1, 100)]] = 100 ∧
    ((TraceAlltomany.run_async_iter 4 [(1, 100)] []).map Op.recvCount).sum = 0 ∧
    TraceAlltomany.amntCounter 4 [[]] ≠ TraceAlltomany.wireBytes 4 [[(1, 100)]] := by
  decide

/-- C10 (amended): at the end of a run each timing slot (the per-bucket
elapsed times and the end-to-end time) is reduced across processes by
maximum and the per-process byte counter by sum, and only rank 0 prints the
result; the per-process counter, however, is the running total of bytes the
process RECEIVES (the in-range amounts of its receive lists — exactly the
receive counts of the operations it posts), not of the bytes it places on
the wire.  Formally: the reductions dominate every process's contribution
(maximum) and every summand (sum), printing happens exactly at rank 0, and
one iteration's contribution to the counter equals the summed receive
counts of its posted operations. -/
theorem claim10_amended (rank nprocs : Nat) (timings : List (Nat → Nat))
    (amnts : List Nat) (s r : TraceAlltomany.Pairs) :
    (∀ t ∈ timings, ∀ k, t k ≤ TraceAlltomany.reduceMax timings k) ∧
    (∀ a ∈ amnts, a ≤ TraceAlltomany.reduceSum amnts) ∧
    (TraceAlltomany.rank0_prints rank = true ↔ rank = 0) ∧
    ((TraceAlltomany.run_async_iter nprocs s r).map Op.recvCount).sum =
      TraceAlltomany.filterAmnt nprocs r := by
  refine ⟨?_, ?_, ?_, ?_⟩
  · intro t ht k
    exact mem_le_natFoldlMax _ 0 _ (List.mem_map_of_mem _ ht)
  · intro a ha
    exact mem_le_natSum amnts a ha
  · simp [TraceAlltomany.rank0_prints]
  · simp only [TraceAlltomany.run_async_iter, List.map_append, List.sum_append]
    rw [TraceAlltomany.recvOpsFrom_recvCount_sum nprocs r 0,
      TraceAlltomany.sendOpsFrom_recvCount_sum nprocs s 0]
    simp [Op.recvCount]

/-- C10 witness: a concrete process's timing slot is dominated by the
maximum reduction. -/
theorem claim10_witness :
    (fun _ : Nat => 7) 3 ≤
      TraceAlltomany.reduceMax [fun _ : Nat => 7, fun _ : Nat => 5] 3 :=
  (claim10_amended 0 4 [fun _ : Nat => 7, fun _ : Nat => 5] [2, 3] [] []).1
    (fun _ : Nat => 7) (by simp) 3
